import Mathlib

/-!
Verification of `ip_freely.py`, a subnet reachability sweeper.

The Python source is embedded shallowly: its pure string/arithmetic
helpers (`IPToInt`, `intToIP`, `cidrToIPS`) become Lean functions on
`String`/`Nat` (Python integers are unbounded, as is `Nat`; the code's
explicit `& 0xFFFFFFFF` masks are kept verbatim); fallible parsing
(Python `ValueError`) is modelled with `Option`; the two effectful
operations (`os.system` on the shell command built by `pingHost`, and
`socket.gethostbyaddr` inside `reverseDNS`) are abstracted as oracle
functions passed in as parameters, so theorems quantify over every
possible behaviour of the operating system.
-/

namespace IpFreely

/-- Models Python `s.split(c)` for a one-character separator, on the
underlying character list: splits at every occurrence of `c`, keeps empty
pieces, yields `[s]` when `c` does not occur and `[[]]` on the empty
string, exactly like Python `str.split`. -/
def splitCore (c : Char) : List Char → List (List Char)
  | [] => [[]]
  | x :: xs =>
    if x = c then [] :: splitCore c xs
    else
      match splitCore c xs with
      | [] => [[x]]
      | p :: ps => (x :: p) :: ps

/-- Models Python `s.split(c)` at the `String` level. -/
def splitOnChar (c : Char) (s : String) : List String :=
  (splitCore c s.data).map List.asString

/-- Models Python `int(s)` as used in this program, on unsigned decimal
strings: the parsed value when `s` is nonempty and all digits, otherwise
`none` (Python raises `ValueError`). -/
def parseNat (s : String) : Option Nat :=
  if s.data ≠ [] ∧ s.data.all (fun ch => ch.isDigit) then
    some (s.data.foldl (fun n ch => n * 10 + (ch.toNat - 48)) 0)
  else none

/-- Models `IPToInt` (ip_freely.py lines 60-72):
`a, b, c, d = ip.split(".")` (a Python `ValueError`, modelled as `none`,
unless the split has exactly four parts), then
`(int(a) << 24) | (int(b) << 16) | (int(c) << 8) | int(d)`.
Note the source performs no octet range check. -/
def IPToInt (ip : String) : Option Nat :=
  match splitOnChar '.' ip with
  | [a, b, c, d] =>
    match parseNat a, parseNat b, parseNat c, parseNat d with
    | some a, some b, some c, some d =>
      some ((a <<< 24) ||| (b <<< 16) ||| (c <<< 8) ||| d)
    | _, _, _, _ => none
  | _ => none

/-- Models `intToIP` (lines 75-86):
`".".join(str((n >> s) & 0xFF) for s in (24, 16, 8, 0))`. -/
def intToIP (n : Nat) : String :=
  String.intercalate "." (([24, 16, 8, 0] : List Nat).map
    (fun s => Nat.repr ((n >>> s) &&& 0xFF)))

/-- Models `cidrToIPS` (lines 89-111). `ip, prefix = cidr.split("/")`
raises `ValueError` (modelled as `none`) unless the split has exactly two
parts; `int(prefix)` likewise on a non-numeric prefix; and a prefix above
32 makes `32 - prefix` negative, so Python's `<<` raises `ValueError`
("negative shift count"), also modelled as `none`.  On Python's unbounded
non-negative integers `~mask & 0xFFFFFFFF` equals `mask ^^^ 0xFFFFFFFF`
(two's complement: `~mask = -mask - 1`), and
`range(network, broadcast + 1)` is `List.range' network (broadcast + 1 - network)`. -/
def cidrToIPS (cidr : String) : Option (List String) :=
  match splitOnChar '/' cidr with
  | [ip, prefixPart] =>
    match parseNat prefixPart with
    | none => none
    | some prefixLen =>
      if 32 < prefixLen then none
      else
        match IPToInt ip with
        | none => none
        | some ip_int =>
          let mask := (0xFFFFFFFF <<< (32 - prefixLen)) &&& 0xFFFFFFFF
          let network := ip_int &&& mask
          let broadcast := network ||| (mask ^^^ 0xFFFFFFFF)
          some ((List.range' network (broadcast + 1 - network)).map intToIP)
  | _ => none

/-- The shell command string `pingHost` builds (line 129): the target is
f-string-interpolated verbatim into the command text handed to
`os.system`. -/
def pingCommand (hostname : String) : String :=
  "ping -c 1 " ++ hostname ++ " > /dev/null 2>&1"

/-- Models `pingHost` (lines 118-130): passes the interpolated command
string to the shell (`os.system`, abstracted as the oracle `sh`) and
returns the resulting exit status. -/
def pingHost (sh : String → Int) (hostname : String) : Int :=
  sh (pingCommand hostname)

/-- Outcome of the system call `socket.gethostbyaddr ip`: success with the
`(hostname, aliaslist, ipaddrlist)` triple, or one of its two
name-resolution failures — `socket.herror` (lookup failed, e.g. no PTR
record) and `socket.gaierror` (address-related error, e.g. malformed
input). -/
inductive HostByAddr where
  | ok (hostname : String) (aliases : List String) (addresses : List String)
  | herror
  | gaierror
deriving DecidableEq

/-- The dict `reverseDNS` returns. `error = none` models the success dict,
which carries no `"error"` key. -/
structure DnsInfo where
  ip : String
  hostname : Option String
  aliases : List String
  addresses : List String
  error : Option String
deriving DecidableEq

/-- Models `reverseDNS` (lines 21-57): calls `socket.gethostbyaddr`
(abstracted as the oracle `resolver`), returns the success dict on
success, and catches both of its name-resolution exceptions, turning each
into an error dict instead of re-raising. -/
def reverseDNS (resolver : String → HostByAddr) (ip : String) : DnsInfo :=
  match resolver ip with
  | .ok h a ad => ⟨ip, some h, a, ad, none⟩
  | .herror => ⟨ip, none, [], [], some "No PTR record found"⟩
  | .gaierror => ⟨ip, none, [], [], some "Invalid IP address"⟩

/-- One per-host result row of `runList` (line 214):
`{"ip": host, "status": status, "dns": dns_info}`. -/
structure ScanRecord where
  ip : String
  status : String
  dns : DnsInfo
deriving DecidableEq

/-- The body of the `for host in hosts` loop of `runList` (lines 198-214),
acting on the loop state `(active, inactive, results)`: ping the host,
resolve it, bump exactly one counter, and append the result row. The
`print` calls do not affect the state. -/
def scanStep (sh : String → Int) (resolver : String → HostByAddr)
    (acc : Nat × Nat × List ScanRecord) (host : String) :
    Nat × Nat × List ScanRecord :=
  let active := acc.1
  let inactive := acc.2.1
  let results := acc.2.2
  let reachable := pingHost sh host == 0
  let dns_info := reverseDNS resolver host
  if reachable then
    (active + 1, inactive, results ++ [⟨host, "active", dns_info⟩])
  else
    (active, inactive + 1, results ++ [⟨host, "inactive", dns_info⟩])

/-- Models `runList` (lines 181-222): starting from
`active = 0, inactive = 0, results = []`, run the loop body over every
host in order.  The returned triple is `(active, inactive, results)`;
the source prints the two counters in its summary line and returns
`results` (the optional CSV export only serializes `results` and does not
change it). -/
def runList (sh : String → Int) (resolver : String → HostByAddr)
    (hosts : List String) : Nat × Nat × List ScanRecord :=
  hosts.foldl (scanStep sh resolver) (0, 0, [])

/-- The record the loop body of `runList` appends for one host (used to
state its per-host behaviour). -/
def hostRecord (sh : String → Int) (resolver : String → HostByAddr)
    (host : String) : ScanRecord :=
  ⟨host, if pingHost sh host == 0 then "active" else "inactive",
    reverseDNS resolver host⟩

/-- Canonical dotted-decimal string of four octet values (the strings the
spec calls valid dotted-decimal IP strings). -/
def ipStr (a b c d : Nat) : String :=
  Nat.repr a ++ "." ++ Nat.repr b ++ "." ++ Nat.repr c ++ "." ++ Nat.repr d

/-- Canonical CIDR string `a.b.c.d/p`. -/
def cidrStr (a b c d p : Nat) : String :=
  ipStr a b c d ++ "/" ++ Nat.repr p

/-- The subnet mask `cidrToIPS` computes for a prefix length:
the top `p` bits of a 32-bit word. -/
def mask32 (p : Nat) : Nat :=
  (0xFFFFFFFF <<< (32 - p)) &&& 0xFFFFFFFF

/-- The big-endian packing of four octets performed by `IPToInt`
(used to state properties of the parsed value). -/
def packOctets (a b c d : Nat) : Nat :=
  (a <<< 24) ||| (b <<< 16) ||| (c <<< 8) ||| d

/-- The network address `cidrToIPS` computes: the parsed IP ANDed with
the mask. -/
def networkOf (ipInt p : Nat) : Nat :=
  ipInt &&& mask32 p

/-- The broadcast address `cidrToIPS` computes: the network ORed with the
inverted mask. -/
def broadcastOf (ipInt p : Nat) : Nat :=
  networkOf ipInt p ||| (mask32 p ^^^ 0xFFFFFFFF)

/-! ## Helper lemmas about the Python string model -/

theorem splitCore_of_not_mem {c : Char} {l : List Char} (h : c ∉ l) :
    splitCore c l = [l] := by
  induction l with
  | nil => rfl
  | cons x xs ih =>
    rw [List.mem_cons, not_or] at h
    have hx : ¬(x = c) := fun e => h.1 e.symm
    simp only [splitCore, if_neg hx, ih h.2]

theorem splitCore_append {c : Char} {p : List Char} (rest : List Char)
    (h : c ∉ p) :
    splitCore c (p ++ c :: rest) = p :: splitCore c rest := by
  induction p with
  | nil => simp [splitCore]
  | cons x xs ih =>
    rw [List.mem_cons, not_or] at h
    have hx : ¬(x = c) := fun e => h.1 e.symm
    rw [List.cons_append]
    simp only [splitCore, if_neg hx, ih h.2]

set_option maxRecDepth 100000 in
/-- Decimal representations of octet values contain neither separator
character, and `int` parses them back exactly. -/
theorem repr_octet_facts :
    ∀ v < 256, '.' ∉ (Nat.repr v).data ∧ '/' ∉ (Nat.repr v).data ∧
      parseNat (Nat.repr v) = some v := by decide

theorem dot_data : ("." : String).data = ['.'] := rfl

theorem slash_data : ("/" : String).data = ['/'] := rfl

theorem ipStr_data (a b c d : Nat) :
    (ipStr a b c d).data =
      (Nat.repr a).data ++ '.' :: ((Nat.repr b).data ++ '.' ::
        ((Nat.repr c).data ++ '.' :: (Nat.repr d).data)) := by
  simp [ipStr, dot_data]

theorem asString_data (s : String) : List.asString s.data = s := rfl

theorem splitOnChar_ipStr {a b c d : Nat} (ha : a < 256) (hb : b < 256)
    (hc : c < 256) (hd : d < 256) :
    splitOnChar '.' (ipStr a b c d) =
      [Nat.repr a, Nat.repr b, Nat.repr c, Nat.repr d] := by
  unfold splitOnChar
  rw [ipStr_data, splitCore_append _ (repr_octet_facts a ha).1,
    splitCore_append _ (repr_octet_facts b hb).1,
    splitCore_append _ (repr_octet_facts c hc).1,
    splitCore_of_not_mem (repr_octet_facts d hd).1]
  simp [asString_data]

/-! ## Arithmetic lemmas about octet packing -/

theorem and255_eq_mod (x : Nat) : x &&& 255 = x % 256 := by
  have h : (255 : Nat) = 2 ^ 8 - 1 := by norm_num
  rw [h, Nat.and_pow_two_sub_one_eq_mod]

theorem or_add_of_lt {i : Nat} (a : Nat) {b : Nat} (hb : b < 2 ^ i) :
    2 ^ i * a ||| b = 2 ^ i * a + b :=
  (Nat.mul_add_lt_is_or hb a).symm

/-- Packing four octets with shifts and bitwise-or, as `IPToInt` does,
computes the big-endian base-256 value. -/
theorem packOctets_eq {a b c d : Nat} (hb : b < 256) (hc : c < 256)
    (hd : d < 256) :
    (a <<< 24) ||| (b <<< 16) ||| (c <<< 8) ||| d =
      2 ^ 24 * a + 2 ^ 16 * b + 2 ^ 8 * c + d := by
  have h24 : a <<< 24 = 2 ^ 24 * a := by rw [Nat.shiftLeft_eq]; ring
  have h16 : b <<< 16 = 2 ^ 16 * b := by rw [Nat.shiftLeft_eq]; ring
  have h8 : c <<< 8 = 2 ^ 8 * c := by rw [Nat.shiftLeft_eq]; ring
  calc (a <<< 24) ||| (b <<< 16) ||| (c <<< 8) ||| d
      = ((2 ^ 24 * a ||| 2 ^ 16 * b) ||| 2 ^ 8 * c) ||| d := by
        rw [h24, h16, h8]
    _ = ((2 ^ 24 * a + 2 ^ 16 * b) ||| 2 ^ 8 * c) ||| d := by
        rw [or_add_of_lt a (show 2 ^ 16 * b < 2 ^ 24 by omega)]
    _ = ((2 ^ 16 * (2 ^ 8 * a + b)) ||| 2 ^ 8 * c) ||| d := by ring_nf
    _ = (2 ^ 16 * (2 ^ 8 * a + b) + 2 ^ 8 * c) ||| d := by
        rw [or_add_of_lt (2 ^ 8 * a + b) (show 2 ^ 8 * c < 2 ^ 16 by omega)]
    _ = (2 ^ 8 * (2 ^ 8 * (2 ^ 8 * a + b) + c)) ||| d := by ring_nf
    _ = 2 ^ 8 * (2 ^ 8 * (2 ^ 8 * a + b) + c) + d :=
        or_add_of_lt _ (show d < 2 ^ 8 by omega)
    _ = 2 ^ 24 * a + 2 ^ 16 * b + 2 ^ 8 * c + d := by ring

theorem IPToInt_ipStr {a b c d : Nat} (ha : a < 256) (hb : b < 256)
    (hc : c < 256) (hd : d < 256) :
    IPToInt (ipStr a b c d) =
      some ((a <<< 24) ||| (b <<< 16) ||| (c <<< 8) ||| d) := by
  simp only [IPToInt, splitOnChar_ipStr ha hb hc hd,
    (repr_octet_facts a ha).2.2, (repr_octet_facts b hb).2.2,
    (repr_octet_facts c hc).2.2, (repr_octet_facts d hd).2.2]

/-- Unfolding of `intToIP` to the four joined octet strings. -/
theorem intToIP_eq_ipStr (n : Nat) :
    intToIP n = ipStr ((n >>> 24) &&& 255) ((n >>> 16) &&& 255)
      ((n >>> 8) &&& 255) ((n >>> 0) &&& 255) := by
  simp only [intToIP, ipStr, List.map, String.intercalate, String.intercalate.go]

/-- Extracting octet `k` (by shift and mask) from a packed base-256 value. -/
theorem extract_octet (a b c d : Nat) (hb : b < 256) (hc : c < 256)
    (hd : d < 256) :
    ((2 ^ 24 * a + 2 ^ 16 * b + 2 ^ 8 * c + d) >>> 24) &&& 255 = a % 256 ∧
    ((2 ^ 24 * a + 2 ^ 16 * b + 2 ^ 8 * c + d) >>> 16) &&& 255 = b ∧
    ((2 ^ 24 * a + 2 ^ 16 * b + 2 ^ 8 * c + d) >>> 8) &&& 255 = c ∧
    ((2 ^ 24 * a + 2 ^ 16 * b + 2 ^ 8 * c + d) >>> 0) &&& 255 = d := by
  rw [Nat.shiftRight_eq_div_pow, Nat.shiftRight_eq_div_pow,
    Nat.shiftRight_eq_div_pow, Nat.shiftRight_eq_div_pow,
    and255_eq_mod, and255_eq_mod, and255_eq_mod, and255_eq_mod]
  refine ⟨by omega, by omega, by omega, by omega⟩

/-- C5: for every valid dotted-decimal IPv4 string `s` (four octets, each
in `[0,255]`, in canonical decimal form), stringifying the parsed value
gives back `s` exactly: `intToIP (IPToInt s) = s`. -/
theorem stringify_parse_roundtrip {a b c d : Nat} (ha : a < 256)
    (hb : b < 256) (hc : c < 256) (hd : d < 256) :
    (IPToInt (ipStr a b c d)).map intToIP = some (ipStr a b c d) := by
  rw [IPToInt_ipStr ha hb hc hd, Option.map_some', intToIP_eq_ipStr,
    packOctets_eq hb hc hd]
  obtain ⟨h1, h2, h3, h4⟩ := extract_octet a b c d hb hc hd
  rw [h1, h2, h3, h4, Nat.mod_eq_of_lt ha]

/-- C5 witness: the round trip at the concrete address `192.168.1.1`. -/
theorem stringify_parse_roundtrip_witness :
    (IPToInt (ipStr 192 168 1 1)).map intToIP = some (ipStr 192 168 1 1) :=
  stringify_parse_roundtrip (by decide) (by decide) (by decide) (by decide)

/-- C10: for every integer `n` with `0 ≤ n < 2^32`, parsing the
stringified value gives back `n` exactly: `IPToInt (intToIP n) = n`, so
`intToIP` is injective on 32-bit values. -/
theorem parse_stringify_roundtrip {n : Nat} (h : n < 4294967296) :
    IPToInt (intToIP n) = some n := by
  rw [intToIP_eq_ipStr]
  have e24 : (n >>> 24) &&& 255 = n / 2 ^ 24 % 256 := by
    rw [Nat.shiftRight_eq_div_pow, and255_eq_mod]
  have e16 : (n >>> 16) &&& 255 = n / 2 ^ 16 % 256 := by
    rw [Nat.shiftRight_eq_div_pow, and255_eq_mod]
  have e8 : (n >>> 8) &&& 255 = n / 2 ^ 8 % 256 := by
    rw [Nat.shiftRight_eq_div_pow, and255_eq_mod]
  have e0 : (n >>> 0) &&& 255 = n % 256 := by
    rw [Nat.shiftRight_eq_div_pow, and255_eq_mod]
    omega
  rw [e24, e16, e8, e0]
  rw [IPToInt_ipStr (by omega) (by omega) (by omega) (by omega)]
  rw [packOctets_eq (by omega) (by omega) (by omega)]
  congr 1
  omega

/-- C10 witness: the round trip at the concrete value `3232235777`
(which is `192.168.1.1`). -/
theorem parse_stringify_roundtrip_witness :
    IPToInt (intToIP 3232235777) = some 3232235777 :=
  parse_stringify_roundtrip (by norm_num)

/-! ## The scan loop -/

/-- Counting the elements satisfying a predicate and those failing it
partitions a list. -/
theorem countP_add_countP_not {α : Type} (p : α → Bool) (l : List α) :
    l.countP p + l.countP (fun a => !(p a)) = l.length := by
  induction l with
  | nil => rfl
  | cons x xs ih => cases hx : p x <;> simp [List.countP_cons, hx] <;> omega

/-- Invariant of the `runList` loop: folding the loop body over the hosts
adds one counted unit per host to exactly one counter and appends exactly
one record per host, in order. -/
theorem runList_loop (sh : String → Int) (resolver : String → HostByAddr)
    (hosts : List String) :
    ∀ (a i : Nat) (res : List ScanRecord),
      hosts.foldl (scanStep sh resolver) (a, i, res) =
        (a + hosts.countP (fun h => pingHost sh h == 0),
         i + hosts.countP (fun h => !(pingHost sh h == 0)),
         res ++ hosts.map (hostRecord sh resolver)) := by
  induction hosts with
  | nil => intro a i res; simp
  | cons host hosts ih =>
    intro a i res
    rw [List.foldl_cons]
    cases hping : pingHost sh host == 0 with
    | false =>
      have hstep : scanStep sh resolver (a, i, res) host =
          (a, i + 1, res ++ [⟨host, "inactive", reverseDNS resolver host⟩]) := by
        simp [scanStep, hping]
      have hrec : hostRecord sh resolver host =
          ⟨host, "inactive", reverseDNS resolver host⟩ := by
        simp [hostRecord, hping]
      have hc1 : (host :: hosts).countP (fun h => pingHost sh h == 0) =
          hosts.countP (fun h => pingHost sh h == 0) := by
        simp [List.countP_cons, hping]
      have hc2 : (host :: hosts).countP (fun h => !(pingHost sh h == 0)) =
          hosts.countP (fun h => !(pingHost sh h == 0)) + 1 := by
        simp [List.countP_cons, hping]
      rw [hstep, ih, hc1, hc2, List.map_cons, hrec]
      refine congrArg₂ Prod.mk rfl (congrArg₂ Prod.mk (by omega) ?_)
      simp
    | true =>
      have hstep : scanStep sh resolver (a, i, res) host =
          (a + 1, i, res ++ [⟨host, "active", reverseDNS resolver host⟩]) := by
        simp [scanStep, hping]
      have hrec : hostRecord sh resolver host =
          ⟨host, "active", reverseDNS resolver host⟩ := by
        simp [hostRecord, hping]
      have hc1 : (host :: hosts).countP (fun h => pingHost sh h == 0) =
          hosts.countP (fun h => pingHost sh h == 0) + 1 := by
        simp [List.countP_cons, hping]
      have hc2 : (host :: hosts).countP (fun h => !(pingHost sh h == 0)) =
          hosts.countP (fun h => !(pingHost sh h == 0)) := by
        simp [List.countP_cons, hping]
      rw [hstep, ih, hc1, hc2, List.map_cons, hrec]
      refine congrArg₂ Prod.mk (by omega) (congrArg₂ Prod.mk rfl ?_)
      simp

/-- C1: for every input address list (and every behaviour of the ping
shell and of the resolver), `runList` returns exactly one record per
input address, in input order: the record list has the same length as the
input and mapping each record to its `ip` field gives back the input list
itself, so the i-th record's `ip` equals the i-th input address and no
record is ever dropped because of a probe or DNS outcome. -/
theorem runList_one_record_per_address (sh : String → Int)
    (resolver : String → HostByAddr) (hosts : List String) :
    ((runList sh resolver hosts).2.2).length = hosts.length ∧
    ((runList sh resolver hosts).2.2).map ScanRecord.ip = hosts := by
  rw [runList, runList_loop sh resolver hosts 0 0 []]
  constructor
  · simp
  · simp only [List.nil_append, List.map_map]
    have : (ScanRecord.ip ∘ hostRecord sh resolver) = fun h => h :=
      funext fun h => rfl
    rw [this, List.map_id']

/-- C2: the summary counters of `runList` satisfy
`active + inactive = number of input addresses`; moreover `active` is
exactly the number of records whose status is `"active"` and `inactive`
exactly the number whose status is `"inactive"`, so each scanned address
increments exactly one of the two counters exactly once, and a record is
`"active"` precisely when that address's active increment happened. -/
theorem runList_counters (sh : String → Int) (resolver : String → HostByAddr)
    (hosts : List String) :
    (runList sh resolver hosts).1 + (runList sh resolver hosts).2.1 =
      hosts.length ∧
    (runList sh resolver hosts).1 =
      ((runList sh resolver hosts).2.2).countP
        (fun r => r.status == "active") ∧
    (runList sh resolver hosts).2.1 =
      ((runList sh resolver hosts).2.2).countP
        (fun r => r.status == "inactive") := by
  rw [runList, runList_loop sh resolver hosts 0 0 []]
  have hact : ∀ h : String,
      ((hostRecord sh resolver h).status == "active") =
        (pingHost sh h == 0) := by
    intro h
    cases hp : pingHost sh h == 0 <;> simp [hostRecord, hp]
  have hinact : ∀ h : String,
      ((hostRecord sh resolver h).status == "inactive") =
        (!(pingHost sh h == 0)) := by
    intro h
    cases hp : pingHost sh h == 0 <;> simp [hostRecord, hp]
  have hfun1 : ((fun r : ScanRecord => r.status == "active") ∘
      hostRecord sh resolver) = (fun h => pingHost sh h == 0) :=
    funext fun h => hact h
  have hfun2 : ((fun r : ScanRecord => r.status == "inactive") ∘
      hostRecord sh resolver) = (fun h => !(pingHost sh h == 0)) :=
    funext fun h => hinact h
  refine ⟨?_, ?_, ?_⟩
  · simp only [Nat.zero_add]
    exact countP_add_countP_not (fun h => pingHost sh h == 0) hosts
  · simp only [Nat.zero_add, List.nil_append, List.countP_map]
    rw [hfun1]
  · simp only [Nat.zero_add, List.nil_append, List.countP_map]
    rw [hfun2]

/-! ## Reverse DNS -/

/-- C8: `reverseDNS` turns the resolver's no-PTR-record failure
(`socket.herror`) into a returned dict with hostname absent and the
NoRecord error text, turns the address-error failure (`socket.gaierror`)
into the InvalidAddress error dict, and — being a total function into
`DnsInfo`, with both resolver exceptions caught — never lets a system
name-resolution failure propagate out as an unhandled exception (it
always returns a dict for the queried address). -/
theorem reverseDNS_failures_handled (resolver : String → HostByAddr)
    (ip : String) :
    (resolver ip = HostByAddr.herror →
      reverseDNS resolver ip =
        ⟨ip, none, [], [], some "No PTR record found"⟩) ∧
    (resolver ip = HostByAddr.gaierror →
      reverseDNS resolver ip =
        ⟨ip, none, [], [], some "Invalid IP address"⟩) ∧
    (reverseDNS resolver ip).ip = ip := by
  refine ⟨fun h => by simp [reverseDNS, h], fun h => by simp [reverseDNS, h], ?_⟩
  cases h : resolver ip <;> simp [reverseDNS, h]

/-- C8 witness: a resolver that finds no PTR record for `203.0.113.9`
yields the NoRecord dict. -/
theorem reverseDNS_failures_handled_witness :
    reverseDNS (fun _ => HostByAddr.herror) "203.0.113.9" =
      ⟨"203.0.113.9", none, [], [], some "No PTR record found"⟩ :=
  (reverseDNS_failures_handled (fun _ => HostByAddr.herror) "203.0.113.9").1 rfl

/-! ## Ping invocation -/

/-- C9 counterexample: the claim that the target is never interpolated
into a shell command string is false at the concrete attacker-controlled
hostname `"8.8.8.8; reboot"` — `pingHost` builds the f-string with the
target spliced in verbatim and hands exactly that command text to
`os.system`, injected `; reboot` included. -/
theorem pingHost_shell_interpolation :
    pingCommand "8.8.8.8; reboot" =
      "ping -c 1 8.8.8.8; reboot > /dev/null 2>&1" ∧
    pingHost
      (fun cmd =>
        if cmd = "ping -c 1 8.8.8.8; reboot > /dev/null 2>&1" then 37 else 0)
      "8.8.8.8; reboot" = 37 :=
  ⟨by decide, by decide⟩

/-- C9 amended: `pingHost` invokes ping by interpolating the target into
a shell command string executed via `os.system`: the exit status is that
of the interpolated command, and the target always occurs verbatim as an
infix of the command handed to the shell, so a command-injection surface
exists for attacker-controlled hostnames. -/
theorem pingHost_interpolates_target (sh : String → Int) (hostname : String) :
    pingHost sh hostname = sh (pingCommand hostname) ∧
    List.IsInfix hostname.data (pingCommand hostname).data := by
  refine ⟨rfl, "ping -c 1 ".data, " > /dev/null 2>&1".data, ?_⟩
  simp [pingCommand]

/-! ## CIDR expansion -/

theorem splitOnChar_cidrStr {a b c d p : Nat} (ha : a < 256) (hb : b < 256)
    (hc : c < 256) (hd : d < 256) (hp : p < 256) :
    splitOnChar '/' (cidrStr a b c d p) = [ipStr a b c d, Nat.repr p] := by
  have hnoslash : '/' ∉ (ipStr a b c d).data := by
    rw [ipStr_data]
    simp only [List.mem_append, List.mem_cons, not_or]
    exact ⟨(repr_octet_facts a ha).2.1, by decide, (repr_octet_facts b hb).2.1,
      by decide, (repr_octet_facts c hc).2.1, by decide,
      (repr_octet_facts d hd).2.1⟩
  have hdata : (cidrStr a b c d p).data =
      (ipStr a b c d).data ++ '/' :: (Nat.repr p).data := by
    simp [cidrStr, slash_data]
  unfold splitOnChar
  rw [hdata, splitCore_append _ hnoslash,
    splitCore_of_not_mem (repr_octet_facts p hp).2.1]
  simp [asString_data]

/-- C4: for every canonical CIDR string with in-range octets and prefix
length in `[0,32]`, `cidrToIPS` returns exactly the dotted-decimal
strings of the closed integer interval `[network, broadcast]` in
ascending order, where `network = ip &&& mask` and
`broadcast = network ||| ~mask` with `mask` the top `p` bits; for
`p = 32` the result is the single network address; and
`cidrToIPS "10.0.0.0/30"` is exactly
`["10.0.0.0", "10.0.0.1", "10.0.0.2", "10.0.0.3"]`. -/
theorem cidrToIPS_interval {a b c d p : Nat} (ha : a < 256) (hb : b < 256)
    (hc : c < 256) (hd : d < 256) (hp : p ≤ 32) :
    cidrToIPS (cidrStr a b c d p) =
      some ((List.range' (networkOf (packOctets a b c d) p)
        (broadcastOf (packOctets a b c d) p + 1 -
          networkOf (packOctets a b c d) p)).map intToIP) ∧
    (p = 32 → cidrToIPS (cidrStr a b c d 32) =
      some [intToIP (packOctets a b c d)]) ∧
    cidrToIPS "10.0.0.0/30" =
      some ["10.0.0.0", "10.0.0.1", "10.0.0.2", "10.0.0.3"] := by
  have hmain : ∀ q, q ≤ 32 → cidrToIPS (cidrStr a b c d q) =
      some ((List.range' (networkOf (packOctets a b c d) q)
        (broadcastOf (packOctets a b c d) q + 1 -
          networkOf (packOctets a b c d) q)).map intToIP) := by
    intro q hq
    simp only [cidrToIPS, splitOnChar_cidrStr ha hb hc hd
      (show q < 256 by omega),
      (repr_octet_facts q (show q < 256 by omega)).2.2,
      IPToInt_ipStr ha hb hc hd]
    rw [if_neg (by omega)]
    simp [networkOf, broadcastOf, packOctets, mask32]
  refine ⟨hmain p hp, fun _ => ?_, by decide⟩
  rw [hmain 32 (by norm_num)]
  have hX : packOctets a b c d < 4294967296 := by
    simp only [packOctets]
    rw [packOctets_eq hb hc hd]
    omega
  have hm32 : mask32 32 = 4294967295 := by decide
  have hnet : networkOf (packOctets a b c d) 32 = packOctets a b c d := by
    simp only [networkOf, hm32]
    have h1 : (4294967295 : Nat) = 2 ^ 32 - 1 := by norm_num
    rw [h1, Nat.and_pow_two_sub_one_eq_mod, Nat.mod_eq_of_lt hX]
  have hbc : broadcastOf (packOctets a b c d) 32 =
      networkOf (packOctets a b c d) 32 := by
    simp only [broadcastOf, hm32]
    simp
  rw [hbc, hnet]
  have hone : packOctets a b c d + 1 - packOctets a b c d = 1 := by omega
  rw [hone]
  simp [List.range']

/-- C4 witness: the theorem applied at `10.0.0.0/30` yields the four
expected addresses. -/
theorem cidrToIPS_interval_witness :
    cidrToIPS "10.0.0.0/30" =
      some ["10.0.0.0", "10.0.0.1", "10.0.0.2", "10.0.0.3"] :=
  (cidrToIPS_interval (a := 10) (b := 0) (c := 0) (d := 0) (p := 30)
    (by decide) (by decide) (by decide) (by decide) (by decide)).2.2

set_option maxRecDepth 100000 in
/-- C6 counterexample: the claim that a CIDR containing an out-of-range
octet fails with `InvalidCidrFormat` is false at the concrete input
`"300.0.0.1/24"` — `cidrToIPS` accepts it and returns a 256-address
sequence (starting at `44.0.0.0`, from the 32-bit-masked value of the
overflowing parse `300 <<< 24 ||| 1`). -/
theorem cidrToIPS_out_of_range_octet_accepted :
    ∃ l, cidrToIPS "300.0.0.1/24" = some l ∧ l.length = 256 ∧
      l.head? = some "44.0.0.0" := by
  refine ⟨(List.range' 738197504 256).map intToIP, by decide, by decide,
    by decide⟩

set_option maxRecDepth 100000 in
/-- C6 amended: `cidrToIPS` validates neither octet range nor dotted
shape beyond what parsing forces: an out-of-range octet such as
`"300.0.0.1/24"` is silently accepted and fully expanded, and only
structurally unparsable inputs — a missing `/`, a non-numeric part, or a
prefix above 32 (a negative shift count) — fail, with Python's generic
`ValueError` (modelled as `none`), not a typed `InvalidCidrFormat`. -/
theorem cidrToIPS_no_octet_validation :
    (∃ l, cidrToIPS "300.0.0.1/24" = some l ∧ l.length = 256) ∧
    cidrToIPS "1.2.3.4" = none ∧
    cidrToIPS "abc/24" = none ∧
    cidrToIPS "1.2.3.4/33" = none := by
  exact ⟨⟨(List.range' 738197504 256).map intToIP, by decide, by decide⟩,
    by decide, by decide, by decide⟩

/-- Expansion of `0.0.0.0/p`: the full lower `2^(32-p)` addresses, with
no guard of any kind on the resulting count. -/
theorem cidrToIPS_zero_ip {p : Nat} (hp : p ≤ 32) :
    cidrToIPS ("0.0.0.0/" ++ Nat.repr p) =
      some ((List.range' 0 (2 ^ (32 - p))).map intToIP) := by
  have hsplit : splitOnChar '/' ("0.0.0.0/" ++ Nat.repr p) =
      ["0.0.0.0", Nat.repr p] := by
    have hdata : ("0.0.0.0/" ++ Nat.repr p).data =
        "0.0.0.0".data ++ '/' :: (Nat.repr p).data := by
      have h0 : ("0.0.0.0/" : String).data =
          "0.0.0.0".data ++ ['/'] := by decide
      simp [h0]
    unfold splitOnChar
    rw [hdata, splitCore_append _ (by decide),
      splitCore_of_not_mem (repr_octet_facts p (show p < 256 by omega)).2.1]
    simp only [List.map_cons, List.map_nil, asString_data]
    rfl
  have h0 : IPToInt "0.0.0.0" = some 0 := by decide
  have hmask : ∀ q < 33,
      ((4294967295 <<< (32 - q)) &&& 4294967295) ^^^ 4294967295 =
        2 ^ (32 - q) - 1 := by decide
  simp only [cidrToIPS, hsplit, (repr_octet_facts p (by omega)).2.2]
  rw [if_neg (by omega)]
  simp only [h0, Nat.zero_and, Nat.zero_or]
  rw [hmask p (by omega)]
  have hcnt : 2 ^ (32 - p) - 1 + 1 - 0 = 2 ^ (32 - p) := by
    have hpos : 0 < 2 ^ (32 - p) := Nat.pos_pow_of_pos _ (by norm_num)
    omega
  rw [hcnt]

/-- C7 counterexample: the claim that a CIDR whose expansion exceeds the
safety ceiling fails with `CapacityExceeded` before scanning is false at
the concrete input `"0.0.0.0/8"` — the expansion succeeds and returns all
16777216 addresses; no ceiling check exists anywhere. -/
theorem cidrToIPS_slash8_fully_expands :
    ∃ l, cidrToIPS "0.0.0.0/8" = some l ∧ l.length = 16777216 := by
  refine ⟨(List.range' 0 (2 ^ (32 - 8))).map intToIP, ?_, ?_⟩
  · have h := cidrToIPS_zero_ip (p := 8) (by norm_num)
    have e : "0.0.0.0/" ++ Nat.repr 8 = "0.0.0.0/8" := by decide
    rw [e] at h
    exact h
  · simp only [List.length_map, List.length_range']
    norm_num

/-- C7 amended: no capacity ceiling exists — for every prefix length
`p ≤ 32`, expanding `0.0.0.0/p` (in particular blocks far above 65536
addresses, such as `/8`) succeeds and returns all `2^(32-p)` addresses;
`cidrToIPS` never fails on account of the expansion size and the scan
would attempt every returned address. -/
theorem cidrToIPS_no_capacity_ceiling {p : Nat} (hp : p ≤ 32) :
    ∃ l, cidrToIPS ("0.0.0.0/" ++ Nat.repr p) = some l ∧
      l.length = 2 ^ (32 - p) := by
  refine ⟨_, cidrToIPS_zero_ip hp, ?_⟩
  simp only [List.length_map, List.length_range']

/-- C7 amended witness: the full expansion of `0.0.0.0/16` has `2^16`
addresses. -/
theorem cidrToIPS_no_capacity_ceiling_witness :
    ∃ l, cidrToIPS ("0.0.0.0/" ++ Nat.repr 16) = some l ∧
      l.length = 2 ^ (32 - 16) :=
  cidrToIPS_no_capacity_ceiling (by norm_num)

end IpFreely
